import Mathlib

/-!
# Verification of the transcript chunking engine

Shallow embedding of `src/backend/chunker.py` (class `Chunker`): the
length-strategy segmenter `_chunk_by_length`, the unimplemented time
strategy `_chunk_by_time`, and the batch assembly `get_chunks`.

Modelling conventions:
* A subtitle line is `Option String`: `some s` is a Python `str`, `none` is a
  non-text value (e.g. `None`/`NaN`), on which `.strip()` raises
  `AttributeError`.
* Timestamps are pairs of `Int` (the code only copies and compares them).
* The generator's observable behaviour is a trace `List ChunkRec × Option
  PyErr`: the records yielded in order, then optionally the exception that
  escapes the generator (`AttributeError` is caught inside and turned into a
  degenerate record, so it never appears in the trace).
* Python `s.split()` and `s.strip().split()` both tokenize on runs of
  whitespace, dropping empty tokens; both are modelled by `pyWords`.
-/

set_option maxHeartbeats 1000000

/-- One step of Python `str.split()`: accumulate the current word (reversed)
in `buf`, flushing it at each whitespace character. -/
def pyWordsAux : List Char → List Char → List (List Char)
  | buf, [] => if buf.isEmpty then [] else [buf.reverse]
  | buf, c :: cs =>
    if c.isWhitespace then
      if buf.isEmpty then pyWordsAux [] cs
      else buf.reverse :: pyWordsAux [] cs
    else pyWordsAux (c :: buf) cs

/-- Python `s.split()` (no separator): the whitespace-delimited tokens of
`s`, with no empty tokens.  Equals `s.strip().split()`. -/
def pyWords (s : String) : List (List Char) :=
  pyWordsAux [] s.data

/-- `len(s.split())`: the whitespace-split word count of a line. -/
def wc (s : String) : Nat :=
  (pyWords s).length

/-- Python `" ".join(lines)`. -/
def pyJoin : List String → String
  | [] => ""
  | [s] => s
  | s :: s2 :: rest => s ++ " " ++ pyJoin (s2 :: rest)

/-- The Python exceptions that can escape the chunker (AttributeError is
caught inside `_chunk_by_length` and never escapes). -/
inductive PyErr where
  | valueError
  | indexError
  | notImplementedError
  | assertionError
deriving DecidableEq, Repr

/-- One yielded record of `_chunk_by_length` / row of the chunked table.
`none` fields are the `np.NaN` sentinels of the degenerate record. -/
structure ChunkRec where
  videoId : String
  blockLines : Option (List String)
  start_time : Option Int
  end_time : Option Int
deriving DecidableEq, Repr

/-- The record's `block` column: `" ".join(state["block"])`. -/
def ChunkRec.block (r : ChunkRec) : Option String :=
  r.blockLines.map pyJoin

/-- The record's `length_of_block` column:
`sum(len(line.split()) for line in state["block"])`. -/
def ChunkRec.length_of_block (r : ChunkRec) : Option Nat :=
  r.blockLines.map (fun bl => (bl.map wc).sum)

/-- The degenerate record yielded in the `except AttributeError` branch:
all data fields are the `np.NaN` sentinel. -/
def degenerateRec (vid : String) : ChunkRec :=
  ⟨vid, none, none, none⟩

/-- `sum(len(s.strip().split()) for s in subtitles)` succeeds iff every line
is a `str`; a `none` line raises `AttributeError` (here: `none`). -/
def allStrings : List (Option String) → Option (List String)
  | [] => some []
  | none :: _ => none
  | some s :: rest => (allStrings rest).map (s :: ·)

/-- The `for idx, subtitle in enumerate(subtitles)` loop of
`_chunk_by_length`, processing the remaining lines `rest` (which start at
position `idx`), with the open block `block0`, its running word count
`lob0` (`state["length_of_block"]`) and the visited word count `covered0`
(`state["covered_length"]`).  Out-of-range timestamp lookups surface as
`IndexError`, which the `except AttributeError` clause does not catch. -/
def chunkLoop (expected minTol : Int) (vid : String) (subs : List String)
    (startTimes endTimes : List Int) (total : Nat) :
    List String → Nat → List String → Nat → Nat → List ChunkRec × Option PyErr
  | [], _, _, _, _ => ([], none)
  | s :: rest, idx, block0, lob0, covered0 =>
    let block := block0 ++ [s]
    let lob := lob0 + wc s
    let covered := covered0 + wc s
    if (lob : Int) ≥ expected ∧ (total : Int) - (covered : Int) ≥ minTol then
      match startTimes[subs.indexOf (block.headD "")]?, endTimes[idx]? with
      | some st, some et =>
        let res := chunkLoop expected minTol vid subs startTimes endTimes total
          rest (idx + 1) [] 0 covered
        (⟨vid, some block, some st, some et⟩ :: res.1, res.2)
      | _, _ => ([], some .indexError)
    else if (total : Int) - (covered : Int) ≤ minTol then
      let tailBlock := block ++ subs.drop idx
      match startTimes[subs.indexOf (tailBlock.headD "")]?, endTimes.getLast? with
      | some st, some et => ([⟨vid, some tailBlock, some st, some et⟩], none)
      | _, _ => ([], some .indexError)
    else
      chunkLoop expected minTol vid subs startTimes endTimes total
        rest (idx + 1) block lob covered

/-- `Chunker._chunk_by_length(video_id, subtitles, timestamps)`, as the trace
of the generator.  `total_length` is computed first (raising `AttributeError`
on any non-text line, caught into the degenerate record); then
`zip(*timestamps)` raises `ValueError` on an empty timestamp list; then the
loop runs. -/
def chunk_by_length (expected minTol : Int) (videoId : String)
    (subtitles : List (Option String)) (timestamps : List (Int × Int)) :
    List ChunkRec × Option PyErr :=
  match allStrings subtitles with
  | none => ([degenerateRec videoId], none)
  | some subs =>
    match timestamps with
    | [] => ([], some .valueError)
    | _ :: _ =>
      chunkLoop expected minTol videoId subs
        (timestamps.map Prod.fst) (timestamps.map Prod.snd)
        ((subs.map wc).sum) subs 0 [] 0 0

/-- `Chunker._chunk_by_time`: its body is `raise NotImplementedError(...)`
(no `yield`), so every call raises before producing anything. -/
def chunk_by_time (videoId : String) (subtitles : List (Option String))
    (timestamps : List (Int × Int)) : List ChunkRec × Option PyErr :=
  ([], some .notImplementedError)

/-- `getattr(self, self._func_mapping_dict[self.chunk_by])(...)`. -/
def runStrategy (chunkBy : String) (expected minTol : Int) (vid : String)
    (subtitles : List (Option String)) (timestamps : List (Int × Int)) :
    List ChunkRec × Option PyErr :=
  if chunkBy = "time" then chunk_by_time vid subtitles timestamps
  else chunk_by_length expected minTol vid subtitles timestamps

/-- `make_df(...)`: materialize one item's generator into a frame
(`pd.DataFrame(list(blocks))`).  If the generator raises mid-stream,
`list(...)` propagates the exception and the partial rows are lost. -/
def buildFrame (chunkBy : String) (expected minTol : Int)
    (item : String × List (Option String) × List (Int × Int)) :
    Except PyErr (List ChunkRec) :=
  match runStrategy chunkBy expected minTol item.1 item.2.1 item.2.2 with
  | (rs, none) => .ok rs
  | (_, some e) => .error e

/-- `Chunker.get_chunks`: build one frame per item (in input order), then
`pd.concat` (which raises `ValueError` on an empty frame list, and keeps each
frame's own 0-based `RangeIndex`), then `reset_index` / `rename` /
`set_index(["videoId", "block_number"])`.  Each row is keyed by the record's
`videoId` column and its 0-based position inside its own frame.  The `assert`
in `Chunker.__init__` restricts the strategy to `length` / `time`. -/
def get_chunks (chunkBy : String) (expected minTol : Int)
    (items : List (String × List (Option String) × List (Int × Int))) :
    Except PyErr (List ((String × Nat) × ChunkRec)) :=
  if chunkBy = "length" ∨ chunkBy = "time" then
    match items.mapM (buildFrame chunkBy expected minTol) with
    | .error e => .error e
    | .ok frames =>
      if frames.isEmpty then .error .valueError
      else .ok ((frames.map
        (fun rs => rs.enum.map (fun p => ((p.2.videoId, p.1), p.2)))).flatten)
  else .error .assertionError

/-! ## Shared concrete inputs and basic lemmas -/

/-- Ten distinct 1-word lines, the worked example of the spec (§8). -/
def exLines : List String :=
  ["a", "b", "c", "d", "e", "f", "g", "h", "i", "j"]

/-- Intervals `[(i, i+1) for i in 0..9]`. -/
def exTs : List (Int × Int) :=
  [(0, 1), (1, 2), (2, 3), (3, 4), (4, 5), (5, 6), (6, 7), (7, 8), (8, 9), (9, 10)]

/-- A `none` line makes `total_length`'s comprehension raise
`AttributeError` before anything is yielded. -/
theorem allStrings_eq_none {l : List (Option String)} (h : none ∈ l) :
    allStrings l = none := by
  induction l with
  | nil => cases h
  | cons a rest ih =>
    cases a with
    | none => rfl
    | some s =>
      rcases List.mem_cons.mp h with h1 | h2
      · exact absurd h1 (by simp)
      · simp [allStrings, ih h2]

/-- A list of genuine strings passes the `total_length` computation. -/
theorem allStrings_map_some (l : List String) : allStrings (l.map some) = some l := by
  induction l with
  | nil => rfl
  | cons s rest ih => simp [allStrings, ih]

/-! ## C1, C2, C4: the length-strategy worked example and tail-merge -/

/-- C1 (failing evaluation): on the spec's worked example
(`expected_threshold = 10`, `min_tolerable_threshold = 5`, ten 1-word lines),
the tail-merge branch fires at `i = 4` but extends the open block with
`subtitles[4:]`, so line 4 contributes twice: the emitted block is the 11
lines `take 5 ++ drop 4`, not the 10 input lines the claim (append positions
`i+1` through end) would produce. -/
theorem C1_tail_merge_duplicates_line :
    chunk_by_length 10 5 "v" (exLines.map some) exTs =
      ([⟨"v", some (exLines.take 5 ++ exLines.drop 4), some 0, some 10⟩], none) ∧
    exLines.take 5 ++ exLines.drop 4 ≠ exLines := by
  exact ⟨by decide, by decide⟩

/-- C2 (failing evaluation): the concatenation of the contributing lines of
all emitted chunks on the worked example is the input with line 4 duplicated
— neither the full input sequence nor the input minus a dropped trailing
block.  Second conjunct: with `min_tolerable_threshold = -1` a trailing
partial block (line `"c"`) really is silently dropped. -/
theorem C2_conservation_violated :
    (((chunk_by_length 10 5 "v" (exLines.map some) exTs).1.filterMap
        ChunkRec.blockLines).flatten =
      ["a", "b", "c", "d", "e", "e", "f", "g", "h", "i", "j"] ∧
    ["a", "b", "c", "d", "e", "e", "f", "g", "h", "i", "j"] ≠ exLines) ∧
    chunk_by_length 2 (-1) "v" (["a", "b", "c"].map some) [(0, 1), (1, 2), (2, 3)] =
      ([⟨"v", some ["a", "b"], some 0, some 2⟩], none) := by
  exact ⟨⟨by decide, by decide⟩, by decide⟩

/-- C4: the spec's worked example emits exactly one chunk with
`start_time = 0` and `end_time = 10`, the tail-merge branch firing at
`i = 4` (block = lines 0–4 extended with lines 4–9); every one of the ten
input lines contributes to the chunk. -/
theorem C4_worked_example :
    chunk_by_length 10 5 "v" (exLines.map some) exTs =
      ([⟨"v", some (exLines.take 5 ++ exLines.drop 4), some 0, some 10⟩], none) ∧
    exLines.all (fun l => (exLines.take 5 ++ exLines.drop 4).contains l) = true := by
  exact ⟨by decide, by decide⟩

/-! ## C3: whole-item degenerate fallback -/

/-- C3: an item with any non-text line yields exactly the single degenerate
record and no exception escapes the generator (the `AttributeError` raised
by `total_length`'s comprehension is caught before any chunk is yielded), so
the batch table build sees an ordinary one-row frame for the item. -/
theorem C3_degenerate_fallback (expected minTol : Int) (vid : String)
    (subtitles : List (Option String)) (timestamps : List (Int × Int))
    (h : none ∈ subtitles) :
    chunk_by_length expected minTol vid subtitles timestamps =
      ([degenerateRec vid], none) := by
  unfold chunk_by_length
  rw [allStrings_eq_none h]

/-- C3 witness: concrete malformed item. -/
theorem C3_degenerate_fallback_witness :
    none ∈ [some "a", none, some "b"] ∧
    chunk_by_length 225 150 "v" [some "a", none, some "b"] [(0, 1), (1, 2), (2, 3)] =
      ([degenerateRec "v"], none) :=
  ⟨by decide,
    C3_degenerate_fallback 225 150 "v" [some "a", none, some "b"]
      [(0, 1), (1, 2), (2, 3)] (by decide)⟩

/-! ## C7: no structural-mismatch validation -/

/-- C7 (counterexample): lines/intervals of different lengths do NOT fail:
with two lines and one interval the tail-merge branch completes without any
error, so no structural-mismatch error is raised, before segmentation or at
all. -/
theorem C7_counterexample :
    ([some "a", some "b"] : List (Option String)).length ≠
      ([((0 : Int), (1 : Int))] : List (Int × Int)).length ∧
    chunk_by_length 10 10 "v" [some "a", some "b"] [(0, 1)] =
      ([⟨"v", some ["a", "a", "b"], some 0, some 1⟩], none) := by
  exact ⟨by decide, by decide⟩

/-- C7 (amended): no length validation happens at all.  A mismatch either
goes unnoticed (first conjunct: two lines, one interval, clean termination)
or surfaces only mid-stream as an uncaught `IndexError`, after chunks have
already been emitted (second conjunct: four lines, two intervals, two chunks
then `IndexError`). -/
theorem C7_no_mismatch_validation :
    (([some "a", some "b"] : List (Option String)).length ≠
        ([((0 : Int), (1 : Int))] : List (Int × Int)).length ∧
      (chunk_by_length 10 10 "v" [some "a", some "b"] [(0, 1)]).2 = none) ∧
    ((["a", "b", "c", "d"].map some).length ≠
        ([((0 : Int), (1 : Int)), (1, 2)] : List (Int × Int)).length ∧
      chunk_by_length 1 1 "v" (["a", "b", "c", "d"].map some) [(0, 1), (1, 2)] =
        ([⟨"v", some ["a"], some 0, some 1⟩, ⟨"v", some ["b"], some 1, some 2⟩],
          some PyErr.indexError)) := by
  exact ⟨⟨by decide, by decide⟩, ⟨by decide, by decide⟩⟩

/-! ## C10: the empty item -/

/-- C10: on an empty item `total_length` succeeds (0) but
`zip(*timestamps)` raises `ValueError`, which the `except AttributeError`
clause does not catch: no record (degenerate or otherwise) is yielded and
the exception escapes to the caller. -/
theorem C10_empty_item_raises (expected minTol : Int) (vid : String) :
    chunk_by_length expected minTol vid [] [] = ([], some PyErr.valueError) := rfl

/-! ## C5: size consistency -/

/-- Splitting around an explicit space: the tokenizer never glues words
across the joining space inserted by `" ".join`. -/
theorem pyWordsAux_append_space (a : List Char) :
    ∀ (buf b : List Char),
      pyWordsAux buf (a ++ ' ' :: b) = pyWordsAux buf a ++ pyWordsAux [] b := by
  have hws : (' ').isWhitespace = true := by decide
  induction a with
  | nil =>
    intro buf b
    by_cases hbuf : buf.isEmpty
    · simp [pyWordsAux, hws, hbuf]
    · simp [pyWordsAux, hws, hbuf]
  | cons c a ih =>
    intro buf b
    by_cases hc : c.isWhitespace
    · by_cases hbuf : buf.isEmpty
      · simp [pyWordsAux, hc, hbuf, ih]
      · simp [pyWordsAux, hc, hbuf, ih]
    · simp [pyWordsAux, hc, ih]

/-- Tokenizing a space-join tokenizes the parts. -/
theorem pyWords_join_cons (s s2 : String) (rest : List String) :
    pyWords (pyJoin (s :: s2 :: rest)) =
      pyWords s ++ pyWords (pyJoin (s2 :: rest)) := by
  show pyWords (s ++ " " ++ pyJoin (s2 :: rest)) = _
  unfold pyWords
  rw [String.data_append, String.data_append]
  have : (" " : String).data = [' '] := rfl
  rw [this, List.append_assoc]
  exact pyWordsAux_append_space s.data [] (pyJoin (s2 :: rest)).data

/-- The stored `length_of_block` (per-line word counts summed) equals the
word count of the joined `block` text. -/
theorem wc_sum_eq_wc_join (bl : List String) :
    (bl.map wc).sum = wc (pyJoin bl) := by
  induction bl with
  | nil => rfl
  | cons s rest ih =>
    cases rest with
    | nil => simp [pyJoin, wc]
    | cons s2 r2 =>
      rw [List.map_cons, List.sum_cons, ih]
      show wc s + (pyWords (pyJoin (s2 :: r2))).length = wc (pyJoin (s :: s2 :: r2))
      rw [wc, wc, pyWords_join_cons, List.length_append]

/-- C5: every non-degenerate record emitted by the length segmenter has
`length_of_block` equal to the whitespace word count of its `block` text,
the space-join of its contributing lines. -/
theorem C5_size_consistency (expected minTol : Int) (vid : String)
    (subtitles : List (Option String)) (timestamps : List (Int × Int))
    (r : ChunkRec)
    (_hr : r ∈ (chunk_by_length expected minTol vid subtitles timestamps).1)
    (bl : List String) (hbl : r.blockLines = some bl) :
    r.block = some (pyJoin bl) ∧ r.length_of_block = some (wc (pyJoin bl)) := by
  constructor
  · simp [ChunkRec.block, hbl]
  · simp [ChunkRec.length_of_block, hbl, wc_sum_eq_wc_join]

/-- C5 witness: a concrete emitted chunk. -/
theorem C5_size_consistency_witness :
    (⟨"v", some ["a", "b"], some 0, some 2⟩ : ChunkRec) ∈
        (chunk_by_length 2 1 "v" (["a", "b", "c"].map some)
          [(0, 1), (1, 2), (2, 3)]).1 ∧
    (⟨"v", some ["a", "b"], some 0, some 2⟩ : ChunkRec).block =
        some (pyJoin ["a", "b"]) ∧
    (⟨"v", some ["a", "b"], some 0, some 2⟩ : ChunkRec).length_of_block =
        some (wc (pyJoin ["a", "b"])) :=
  ⟨by decide,
    C5_size_consistency 2 1 "v" (["a", "b", "c"].map some) [(0, 1), (1, 2), (2, 3)]
      _ (by decide) ["a", "b"] rfl⟩

/-! ## C9: the unimplemented time strategy -/

/-- C9: `_chunk_by_time` raises `NotImplementedError` on every call before
yielding anything, and `get_chunks` under the time strategy propagates it
for every non-empty batch — it never produces length-based (or any) output. -/
theorem C9_time_not_implemented :
    (∀ (vid : String) (subs : List (Option String)) (ts : List (Int × Int)),
      chunk_by_time vid subs ts = ([], some PyErr.notImplementedError)) ∧
    (∀ (expected minTol : Int) items, items ≠ [] →
      get_chunks "time" expected minTol items = .error PyErr.notImplementedError) := by
  refine ⟨fun _ _ _ => rfl, ?_⟩
  intro expected minTol items h
  match items with
  | [] => exact absurd rfl h
  | it :: rest =>
    have hfa : buildFrame "time" expected minTol it =
        .error PyErr.notImplementedError := rfl
    have hm : (it :: rest).mapM (buildFrame "time" expected minTol) =
        (.error PyErr.notImplementedError :
          Except PyErr (List (List ChunkRec))) := by
      rw [List.mapM_cons, hfa]
      rfl
    simp only [get_chunks, hm]
    rfl

/-- C9 witness. -/
theorem C9_time_not_implemented_witness :
    chunk_by_time "v" [some "a"] [(0, 1)] =
      ([], some PyErr.notImplementedError) ∧
    get_chunks "time" 60 45 [("v", [some "a"], [(0, 1)])] =
      .error PyErr.notImplementedError :=
  ⟨C9_time_not_implemented.1 "v" [some "a"] [(0, 1)],
    C9_time_not_implemented.2 60 45 [("v", [some "a"], [(0, 1)])] (by decide)⟩

/-! ## C8: batch assembly -/

/-- When the batch's frame construction succeeds, each frame is exactly the
materialized generator output of its item, in item order. -/
theorem mapM_buildFrame_ok {chunkBy : String} {expected minTol : Int}
    {items : List (String × List (Option String) × List (Int × Int))}
    {frames : List (List ChunkRec)}
    (h : items.mapM (buildFrame chunkBy expected minTol) = .ok frames) :
    frames = items.map
      (fun it => (runStrategy chunkBy expected minTol it.1 it.2.1 it.2.2).1) := by
  induction items generalizing frames with
  | nil =>
    simp only [List.mapM_nil] at h
    cases h
    rfl
  | cons it rest ih =>
    rw [List.mapM_cons] at h
    cases hb : buildFrame chunkBy expected minTol it with
    | error e => rw [hb] at h; cases h
    | ok rs =>
      rw [hb] at h
      cases hr : rest.mapM (buildFrame chunkBy expected minTol) with
      | error e =>
        rw [hr] at h
        cases h
      | ok bs =>
        rw [hr] at h
        have hbs := ih hr
        have hframes : frames = rs :: bs := by
          cases h
          rfl
        have hrs : rs = (runStrategy chunkBy expected minTol it.1 it.2.1 it.2.2).1 := by
          unfold buildFrame at hb
          cases hrun : runStrategy chunkBy expected minTol it.1 it.2.1 it.2.2 with
          | mk a e2 =>
            rw [hrun] at hb
            cases e2 with
            | none => cases hb; rfl
            | some e3 => cases hb
        rw [hframes, hbs, hrs, List.map_cons]

/-- C8: a successful `get_chunks` under the length strategy returns exactly
the concatenation, in input item order, of each item's chunk records in
emission order, each row keyed by the record's `videoId` and its 0-based
rank within its own item. -/
theorem C8_batch_assembly (expected minTol : Int)
    (items : List (String × List (Option String) × List (Int × Int)))
    (rows : List ((String × Nat) × ChunkRec))
    (h : get_chunks "length" expected minTol items = .ok rows) :
    rows = (items.map (fun it =>
        (chunk_by_length expected minTol it.1 it.2.1 it.2.2).1.enum.map
          (fun p => ((p.2.videoId, p.1), p.2)))).flatten := by
  unfold get_chunks at h
  rw [if_pos (Or.inl rfl)] at h
  cases hm : items.mapM (buildFrame "length" expected minTol) with
  | error e => rw [hm] at h; cases h
  | ok frames =>
    rw [hm] at h
    simp only at h
    by_cases hf : frames.isEmpty
    · rw [if_pos hf] at h; cases h
    · rw [if_neg hf] at h
      have hrows : rows = (frames.map
          (fun rs => rs.enum.map (fun p => ((p.2.videoId, p.1), p.2)))).flatten := by
        cases h; rfl
      rw [hrows, mapM_buildFrame_ok hm, List.map_map]
      have : (fun rs : List ChunkRec =>
            rs.enum.map (fun p => ((p.2.videoId, p.1), p.2))) ∘
          (fun it : String × List (Option String) × List (Int × Int) =>
            (runStrategy "length" expected minTol it.1 it.2.1 it.2.2).1) =
          fun it : String × List (Option String) × List (Int × Int) =>
            (chunk_by_length expected minTol it.1 it.2.1 it.2.2).1.enum.map
              (fun p => ((p.2.videoId, p.1), p.2)) := by
        funext it
        simp [Function.comp, runStrategy]
      rw [this]

/-- C8 witness: a two-item batch, ranks restarting per item. -/
theorem C8_batch_assembly_witness :
    ([((("v1" : String), (0 : Nat)),
        (⟨"v1", some ["a", "b"], some 0, some 2⟩ : ChunkRec)),
      ((("v1" : String), (1 : Nat)),
        (⟨"v1", some ["c", "c"], some 2, some 3⟩ : ChunkRec)),
      ((("v2" : String), (0 : Nat)),
        (⟨"v2", some ["x y z w", "x y z w"], some 5, some 9⟩ : ChunkRec))] :
      List ((String × Nat) × ChunkRec)) =
      (([("v1", ["a", "b", "c"].map some, [(0, 1), (1, 2), (2, 3)]),
          ("v2", ["x y z w"].map some, [(5, 9)])] :
        List (String × List (Option String) × List (Int × Int))).map (fun it =>
          (chunk_by_length 2 1 it.1 it.2.1 it.2.2).1.enum.map
            (fun p => ((p.2.videoId, p.1), p.2)))).flatten :=
  C8_batch_assembly 2 1
    [("v1", ["a", "b", "c"].map some, [(0, 1), (1, 2), (2, 3)]),
      ("v2", ["x y z w"].map some, [(5, 9)])]
    _ rfl

/-! ## C6: temporal ordering — machinery -/

/-- Boolean temporal ordering between two records: `end_time` of the first ≤
`start_time` of the second whenever both are present. -/
def timeOrderedB (r r2 : ChunkRec) : Bool :=
  match r.end_time, r2.start_time with
  | some et, some st => decide (et ≤ st)
  | _, _ => true

/-- The shape of the record list produced by the segmentation loop when the
open block starts at line `j`: either nothing, a closed chunk over lines
`j..b` followed by records starting at `b+1`, or one final tail-merged chunk
over lines `j..b` re-extended with `subs[b:]`. -/
inductive Spans (vid : String) (subs : List String) (ts : List (Int × Int)) :
    Nat → List ChunkRec → Prop where
  | nil (j : Nat) : Spans vid subs ts j []
  | close (j b : Nat) (st et : Int) (rs : List ChunkRec)
      (hjb : j ≤ b) (hb : b < subs.length)
      (hst : (ts.map Prod.fst)[j]? = some st)
      (het : (ts.map Prod.snd)[b]? = some et)
      (hrest : Spans vid subs ts (b + 1) rs) :
      Spans vid subs ts j
        (⟨vid, some ((subs.take (b + 1)).drop j), some st, some et⟩ :: rs)
  | tailm (j b : Nat) (st et : Int)
      (hjb : j ≤ b) (hb : b < subs.length)
      (hst : (ts.map Prod.fst)[j]? = some st)
      (het : (ts.map Prod.snd).getLast? = some et) :
      Spans vid subs ts j
        [⟨vid, some ((subs.take (b + 1)).drop j ++ subs.drop b), some st, some et⟩]

/-- Head of a slice of `subs`. -/
theorem slice_head (subs : List String) {j k : Nat} (hjk : j < k) :
    ((subs.take k).drop j).head? = subs[j]? := by
  rw [List.head?_eq_getElem?, List.getElem?_drop]
  simp [List.getElem?_take, hjk]

/-- Last element of a slice of `subs`. -/
theorem slice_getLast (subs : List String) {j b : Nat} (hjb : j ≤ b)
    (hb : b < subs.length) :
    ((subs.take (b + 1)).drop j).getLast? = subs[b]? := by
  rw [List.getLast?_eq_getElem?, List.getElem?_drop, List.length_drop,
    List.length_take]
  have h2 : j + (min (b + 1) subs.length - j - 1) = b := by omega
  rw [h2]
  simp [List.getElem?_take, Nat.lt_succ_self]

/-- Last element of a tail slice of `subs`. -/
theorem drop_getLast (subs : List String) {b : Nat} (hb : b < subs.length) :
    (subs.drop b).getLast? = subs[subs.length - 1]? := by
  rw [List.getLast?_eq_getElem?, List.getElem?_drop, List.length_drop]
  have h2 : b + (subs.length - b - 1) = subs.length - 1 := by omega
  rw [h2]

/-- On a duplicate-free item, `subtitles.index` of the `j`-th line is `j`:
content-based lookup recovers the true position. -/
theorem nodup_indexOf_get {subs : List String} (hnd : subs.Nodup) {j : Nat}
    (hj : j < subs.length) :
    subs.indexOf (subs.get ⟨j, hj⟩) = j := by
  have hmem : subs.get ⟨j, hj⟩ ∈ subs := List.get_mem subs j hj
  have hlt : subs.indexOf (subs.get ⟨j, hj⟩) < subs.length :=
    List.indexOf_lt_length.mpr hmem
  have hget := List.indexOf_get hlt
  have h2 := (hnd.get_inj_iff).mp hget
  exact congrArg Fin.val h2

/-- Extending a slice `subs[j:idx]` with the line at `idx`. -/
theorem slice_snoc {subs : List String} {idx j : Nat} {s : String}
    (hs : subs[idx]? = some s) (hj : j ≤ idx) (hidx : idx < subs.length) :
    (subs.take (idx + 1)).drop j = (subs.take idx).drop j ++ [s] := by
  rw [List.take_succ, hs]
  rw [List.drop_append_of_le_length]
  · rfl
  · rw [List.length_take]; omega

/-- Word-count bookkeeping: visiting line `idx` adds its word count. -/
theorem covered_step {subs : List String} {idx : Nat} {s : String}
    (hs : subs[idx]? = some s) :
    ((subs.take (idx + 1)).map wc).sum = ((subs.take idx).map wc).sum + wc s := by
  rw [List.take_succ, hs]
  simp

/-- Decomposing `subs.drop idx = s :: rest`. -/
theorem drop_cons_facts {subs rest2 : List String} {idx : Nat} {s : String}
    (h : subs.drop idx = s :: rest2) :
    subs[idx]? = some s ∧ subs.drop (idx + 1) = rest2 ∧ idx < subs.length := by
  have h1 : (subs.drop idx).head? = some s := by rw [h]; rfl
  rw [List.head?_eq_getElem?, List.getElem?_drop] at h1
  have h3 : subs.drop (idx + 1) = rest2 := by
    rw [← List.tail_drop, h]
    rfl
  have h4 : idx < subs.length := by
    by_contra hc
    push_neg at hc
    rw [List.drop_eq_nil_of_le hc] at h
    cases h
  exact ⟨by simpa using h1, h3, h4⟩

/-- Reading a `some` value off a mapped timestamp column. -/
theorem map_getElem?_some {f : Int × Int → Int} {ts : List (Int × Int)}
    {j : Nat} {v : Int} (h : (ts.map f)[j]? = some v) :
    ∃ (hj : j < ts.length), v = f (ts.get ⟨j, hj⟩) := by
  rw [List.getElem?_map] at h
  cases hj : ts[j]? with
  | none => rw [hj] at h; cases h
  | some p =>
    rw [hj] at h
    have hlt : j < ts.length := by
      by_contra hc
      push_neg at hc
      rw [List.getElem?_eq_none hc] at hj
      cases hj
    refine ⟨hlt, ?_⟩
    have hp : ts.get ⟨j, hlt⟩ = p := by
      have hg := List.getElem?_eq_getElem hlt
      rw [hj] at hg
      cases hg
      exact List.get_eq_getElem ts ⟨j, hlt⟩
    cases h
    rw [hp]

/-- With per-interval well-formedness and interval monotonicity, the start
of interval `a` is ≤ the end of any later interval `b`. -/
theorem ts_span_le {ts : List (Int × Int)}
    (hwf : ∀ i (h : i < ts.length), (ts.get ⟨i, h⟩).1 ≤ (ts.get ⟨i, h⟩).2)
    (hmono : ∀ i (h : i + 1 < ts.length),
      (ts.get ⟨i, Nat.lt_of_succ_lt h⟩).2 ≤ (ts.get ⟨i + 1, h⟩).1) :
    ∀ (b : Nat) (hb : b < ts.length) (a : Nat) (hab : a ≤ b),
      (ts.get ⟨a, Nat.lt_of_le_of_lt hab hb⟩).1 ≤ (ts.get ⟨b, hb⟩).2 := by
  intro b
  induction b with
  | zero =>
    intro hb a hab
    have ha0 : a = 0 := Nat.le_zero.mp hab
    subst ha0
    exact hwf 0 hb
  | succ b ih =>
    intro hb a hab
    rcases Nat.eq_or_lt_of_le hab with he | hl
    · subst he
      exact hwf _ hb
    · have hab2 : a ≤ b := Nat.lt_succ_iff.mp hl
      have hb2 : b < ts.length := Nat.lt_of_succ_lt hb
      calc (ts.get ⟨a, Nat.lt_of_le_of_lt hab hb⟩).1
          ≤ (ts.get ⟨b, hb2⟩).2 := ih hb2 a hab2
        _ ≤ (ts.get ⟨b + 1, hb⟩).1 := hmono b hb
        _ ≤ (ts.get ⟨b + 1, hb⟩).2 := hwf (b + 1) hb

/-- Loop invariant of `_chunk_by_length`'s scan: if the open block holds
exactly the slice `subs[j:idx]` and the counters match, then on a
duplicate-free item with as many timestamps as lines the loop raises
nothing and its records are `Spans`-shaped starting at `j`. -/
theorem chunkLoop_spans (expected minTol : Int) (vid : String)
    (subs : List String) (ts : List (Int × Int))
    (hn : ts.length = subs.length) (hnd : subs.Nodup) :
    ∀ (rest : List String) (idx j : Nat) (block : List String) (lob covered : Nat),
      subs.drop idx = rest → j ≤ idx →
      block = (subs.take idx).drop j →
      lob = (block.map wc).sum →
      covered = ((subs.take idx).map wc).sum →
      (chunkLoop expected minTol vid subs (ts.map Prod.fst) (ts.map Prod.snd)
          ((subs.map wc).sum) rest idx block lob covered).2 = none ∧
      Spans vid subs ts j
        (chunkLoop expected minTol vid subs (ts.map Prod.fst) (ts.map Prod.snd)
          ((subs.map wc).sum) rest idx block lob covered).1 := by
  intro rest
  induction rest with
  | nil =>
    intro idx j block lob covered _ _ _ _ _
    exact ⟨rfl, Spans.nil j⟩
  | cons s rest2 ih =>
    intro idx j block lob covered hrest hj hblock hlob hcov
    obtain ⟨hs, hdrop2, hidx⟩ := drop_cons_facts hrest
    have hjn : j < subs.length := Nat.lt_of_le_of_lt hj hidx
    have hjts : j < ts.length := by omega
    have hits : idx < ts.length := by omega
    have hl1 : ts.length - 1 < ts.length := by omega
    have hblock2 : block ++ [s] = (subs.take (idx + 1)).drop j := by
      rw [hblock]
      exact (slice_snoc hs hj hidx).symm
    have hlob2 : lob + wc s = (((subs.take (idx + 1)).drop j).map wc).sum := by
      rw [← hblock2, List.map_append, List.sum_append, hlob]
      simp
    have hcov2 : covered + wc s = ((subs.take (idx + 1)).map wc).sum := by
      rw [hcov, covered_step hs]
    have hhead : ((subs.take (idx + 1)).drop j).headD "" = subs[j] := by
      rw [List.headD_eq_head?, slice_head subs (Nat.lt_succ_of_le hj),
        List.getElem?_eq_getElem hjn]
      rfl
    have hidxof : subs.indexOf (((subs.take (idx + 1)).drop j).headD "") = j := by
      rw [hhead]
      have h5 := nodup_indexOf_get hnd hjn
      simpa using h5
    have hheadT :
        ((subs.take (idx + 1)).drop j ++ subs.drop idx).headD "" = subs[j] := by
      rw [List.headD_eq_head?, List.head?_append,
        slice_head subs (Nat.lt_succ_of_le hj),
        List.getElem?_eq_getElem hjn, Option.or_some]
      rfl
    have hidxofT : subs.indexOf
        (((subs.take (idx + 1)).drop j ++ subs.drop idx).headD "") = j := by
      rw [hheadT]
      have h5 := nodup_indexOf_get hnd hjn
      simpa using h5
    have hstj : (ts.map Prod.fst)[j]? = some (ts.get ⟨j, hjts⟩).1 := by
      rw [List.getElem?_map, List.getElem?_eq_getElem hjts, List.get_eq_getElem]
      rfl
    have hetidx : (ts.map Prod.snd)[idx]? = some (ts.get ⟨idx, hits⟩).2 := by
      rw [List.getElem?_map, List.getElem?_eq_getElem hits, List.get_eq_getElem]
      rfl
    have hlast : (ts.map Prod.snd).getLast? =
        some (ts.get ⟨ts.length - 1, hl1⟩).2 := by
      rw [List.getLast?_map, List.getLast?_eq_getElem?,
        List.getElem?_eq_getElem hl1, List.get_eq_getElem]
      rfl
    simp only [chunkLoop]
    rw [hblock2]
    split
    · rw [hidxof, hstj, hetidx]
      have hres := ih (idx + 1) (idx + 1) [] 0 (covered + wc s) hdrop2
        (Nat.le_refl _)
        ((List.drop_eq_nil_of_le
          (by rw [List.length_take]; exact min_le_left _ _)).symm)
        rfl hcov2
      exact ⟨hres.1,
        Spans.close j idx ((ts.get ⟨j, hjts⟩).1) ((ts.get ⟨idx, hits⟩).2) _
          hj hidx hstj hetidx hres.2⟩
    · split
      · rw [hidxofT, hstj, hlast]
        exact ⟨rfl,
          Spans.tailm j idx ((ts.get ⟨j, hjts⟩).1)
            ((ts.get ⟨ts.length - 1, hl1⟩).2) hj hidx hstj hlast⟩
      · exact ih (idx + 1) j ((subs.take (idx + 1)).drop j) (lob + wc s)
          (covered + wc s) hdrop2 (Nat.le_succ_of_le hj) rfl hlob2 hcov2

/-- The full segmenter run is `Spans`-shaped from line 0 (on a
duplicate-free all-text item with matching timestamp count). -/
theorem chunk_by_length_spans (expected minTol : Int) (vid : String)
    (subs : List String) (ts : List (Int × Int))
    (hn : ts.length = subs.length) (hnd : subs.Nodup) :
    Spans vid subs ts 0
      (chunk_by_length expected minTol vid (subs.map some) ts).1 := by
  unfold chunk_by_length
  rw [allStrings_map_some]
  cases ts with
  | nil => exact Spans.nil 0
  | cons t ts2 =>
    exact (chunkLoop_spans expected minTol vid subs (t :: ts2) hn hnd
      subs 0 0 [] 0 0 (List.drop_zero subs) (Nat.le_refl 0) rfl rfl rfl).2

/-- Everything C6 needs, read off a `Spans` derivation: each record is a
well-formed chunk whose `start_time`/`end_time` are the start of its first
and the end of its last contributing line, consecutive records do not
overlap in time, and the first record starts at line `j`. -/
theorem spans_facts {vid : String} {subs : List String} {ts : List (Int × Int)}
    (hn : ts.length = subs.length)
    (hwf : ∀ i (h : i < ts.length), (ts.get ⟨i, h⟩).1 ≤ (ts.get ⟨i, h⟩).2)
    (hmono : ∀ i (h : i + 1 < ts.length),
      (ts.get ⟨i, Nat.lt_of_succ_lt h⟩).2 ≤ (ts.get ⟨i + 1, h⟩).1) :
    ∀ {j : Nat} {rs : List ChunkRec}, Spans vid subs ts j rs →
      (∀ r ∈ rs, ∃ bl st et a b, ∃ (ha : a < ts.length) (hb : b < ts.length),
          r = ⟨vid, some bl, some st, some et⟩ ∧
          bl.head? = subs[a]? ∧ bl.getLast? = subs[b]? ∧
          st = (ts.get ⟨a, ha⟩).1 ∧ et = (ts.get ⟨b, hb⟩).2 ∧ a ≤ b ∧ st ≤ et) ∧
      List.Chain' (fun r r2 => timeOrderedB r r2 = true) rs ∧
      (∀ r0, rs.head? = some r0 →
        ∃ (hj : j < ts.length), r0.start_time = some (ts.get ⟨j, hj⟩).1) := by
  intro j rs hsp
  induction hsp with
  | nil j =>
    refine ⟨?_, List.chain'_nil, ?_⟩
    · intro r hr
      cases hr
    · intro r0 h0
      cases h0
  | close j b st et rs hjb hb hst het hrest ih =>
    obtain ⟨hjts, hstv⟩ := map_getElem?_some hst
    obtain ⟨hbts, hetv⟩ := map_getElem?_some het
    refine ⟨?_, ?_, ?_⟩
    · intro r hr
      rcases List.mem_cons.mp hr with hr1 | hr2
      · refine ⟨(subs.take (b + 1)).drop j, st, et, j, b, hjts, hbts, hr1,
          slice_head subs (Nat.lt_succ_of_le hjb), slice_getLast subs hjb hb,
          hstv, hetv, hjb, ?_⟩
        rw [hstv, hetv]
        exact ts_span_le hwf hmono b hbts j hjb
      · exact ih.1 r hr2
    · rw [List.chain'_cons']
      refine ⟨?_, ih.2.1⟩
      intro y hy
      obtain ⟨hb1, hy2⟩ := ih.2.2 y hy
      have hle : et ≤ (ts.get ⟨b + 1, hb1⟩).1 := by
        rw [hetv]
        exact hmono b hb1
      unfold timeOrderedB
      rw [hy2]
      exact decide_eq_true hle
    · intro r0 h0
      cases h0
      exact ⟨hjts, by rw [hstv]⟩
  | tailm j b st et hjb hb hst het =>
    obtain ⟨hjts, hstv⟩ := map_getElem?_some hst
    have hbn1 : subs.length - 1 < subs.length := by omega
    have hbts1 : ts.length - 1 < ts.length := by omega
    have hetv : et = (ts.get ⟨ts.length - 1, hbts1⟩).2 := by
      rw [List.getLast?_map, List.getLast?_eq_getElem?,
        List.getElem?_eq_getElem hbts1] at het
      rw [List.get_eq_getElem]
      simpa using het.symm
    have hdropne : subs.drop b ≠ [] := by
      intro hnil
      have hlen := List.length_drop b subs
      rw [hnil] at hlen
      simp at hlen
      omega
    refine ⟨?_, List.chain'_singleton _, ?_⟩
    · intro r hr
      rcases List.mem_cons.mp hr with hr1 | hr2
      · refine ⟨(subs.take (b + 1)).drop j ++ subs.drop b, st, et, j,
          ts.length - 1, hjts, hbts1, hr1, ?_, ?_, hstv, hetv, by omega, ?_⟩
        · rw [List.head?_append, slice_head subs (Nat.lt_succ_of_le hjb)]
          rw [List.getElem?_eq_getElem (Nat.lt_of_le_of_lt hjb hb)]
          rw [Option.or_some]
        · rw [List.getLast?_append_of_ne_nil _ hdropne, drop_getLast subs hb,
            show subs.length - 1 = ts.length - 1 from by omega]
        · rw [hstv, hetv]
          exact ts_span_le hwf hmono (ts.length - 1) hbts1 j (by omega)
      · cases hr2
    · intro r0 h0
      cases h0
      exact ⟨hjts, by rw [hstv]⟩

/-- C6 (amended: line texts additionally assumed pairwise distinct, since
`start_times[subtitles.index(block[0])]` resolves the block start by content
lookup): on an all-text item with as many well-formed, monotonic intervals
as lines and duplicate-free line texts, every emitted chunk has
`start_time` = the start of its first contributing line ≤ `end_time` = the
end of its last contributing line, and consecutive chunks do not overlap in
time. -/
theorem C6_temporal_ordering (expected minTol : Int) (vid : String)
    (subs : List String) (ts : List (Int × Int))
    (hn : ts.length = subs.length) (hnd : subs.Nodup)
    (hwf : ∀ i (h : i < ts.length), (ts.get ⟨i, h⟩).1 ≤ (ts.get ⟨i, h⟩).2)
    (hmono : ∀ i (h : i + 1 < ts.length),
      (ts.get ⟨i, Nat.lt_of_succ_lt h⟩).2 ≤ (ts.get ⟨i + 1, h⟩).1) :
    (∀ r ∈ (chunk_by_length expected minTol vid (subs.map some) ts).1,
      ∃ bl st et a b, ∃ (ha : a < ts.length) (hb : b < ts.length),
        r = ⟨vid, some bl, some st, some et⟩ ∧
        bl.head? = subs[a]? ∧ bl.getLast? = subs[b]? ∧
        st = (ts.get ⟨a, ha⟩).1 ∧ et = (ts.get ⟨b, hb⟩).2 ∧ a ≤ b ∧ st ≤ et) ∧
    List.Chain' (fun r r2 => timeOrderedB r r2 = true)
      (chunk_by_length expected minTol vid (subs.map some) ts).1 := by
  have hf := spans_facts hn hwf hmono
    (chunk_by_length_spans expected minTol vid subs ts hn hnd)
  exact ⟨hf.1, hf.2.1⟩

/-- C6 witness: a concrete duplicate-free item with touching intervals. -/
theorem C6_temporal_ordering_witness :
    (∀ r ∈ (chunk_by_length 2 1 "v" (["a", "b", "c"].map some)
        [(0, 1), (1, 2), (2, 3)]).1,
      ∃ bl st et a b,
        ∃ (ha : a < ([((0 : Int), (1 : Int)), (1, 2), (2, 3)] : List (Int × Int)).length)
          (hb : b < ([((0 : Int), (1 : Int)), (1, 2), (2, 3)] : List (Int × Int)).length),
        r = ⟨"v", some bl, some st, some et⟩ ∧
        bl.head? = (["a", "b", "c"] : List String)[a]? ∧
        bl.getLast? = (["a", "b", "c"] : List String)[b]? ∧
        st = (([((0 : Int), (1 : Int)), (1, 2), (2, 3)] : List (Int × Int)).get ⟨a, ha⟩).1 ∧
        et = (([((0 : Int), (1 : Int)), (1, 2), (2, 3)] : List (Int × Int)).get ⟨b, hb⟩).2 ∧
        a ≤ b ∧ st ≤ et) ∧
    List.Chain' (fun r r2 => timeOrderedB r r2 = true)
      (chunk_by_length 2 1 "v" (["a", "b", "c"].map some)
        [(0, 1), (1, 2), (2, 3)]).1 :=
  C6_temporal_ordering 2 1 "v" ["a", "b", "c"] [(0, 1), (1, 2), (2, 3)]
    (by decide) (by decide) (by decide)
    (by
      intro i h
      have h2 : i < 2 := by simp at h; omega
      interval_cases i <;> exact le_refl _)

/-- C6 (counterexample): with duplicate line text (three copies of
`"a b"`), well-formed monotonic intervals, `expected = 2`, `min_tol = 1`,
the content-based index lookup sends every chunk's `start_time` to line 0's
start: the emitted `(start_time, end_time)` pairs are
`(0,1), (0,2), (0,3)`, so chunk 0's end (1) exceeds chunk 1's start (0) and
chunk 1's `start_time` is not the start of its first contributing line
(line 1, start 1). -/
theorem C6_counterexample :
    (∀ i (h : i < ([((0 : Int), (1 : Int)), (1, 2), (2, 3)] : List (Int × Int)).length),
      (([((0 : Int), (1 : Int)), (1, 2), (2, 3)] : List (Int × Int)).get ⟨i, h⟩).1 ≤
        (([((0 : Int), (1 : Int)), (1, 2), (2, 3)] : List (Int × Int)).get ⟨i, h⟩).2) ∧
    (∀ i (h : i + 1 < ([((0 : Int), (1 : Int)), (1, 2), (2, 3)] : List (Int × Int)).length),
      (([((0 : Int), (1 : Int)), (1, 2), (2, 3)] : List (Int × Int)).get
          ⟨i, Nat.lt_of_succ_lt h⟩).2 ≤
        (([((0 : Int), (1 : Int)), (1, 2), (2, 3)] : List (Int × Int)).get ⟨i + 1, h⟩).1) ∧
    (chunk_by_length 2 1 "v" (["a b", "a b", "a b"].map some)
        [(0, 1), (1, 2), (2, 3)]).1.map
      (fun r => (r.start_time, r.end_time)) =
      [(some 0, some 1), (some 0, some 2), (some 0, some 3)] ∧
    ¬ List.Chain' (fun r r2 => timeOrderedB r r2 = true)
      (chunk_by_length 2 1 "v" (["a b", "a b", "a b"].map some)
        [(0, 1), (1, 2), (2, 3)]).1 := by
  refine ⟨by decide, ?_, by decide, ?_⟩
  · intro i h
    have h2 : i < 2 := by simp at h; omega
    interval_cases i <;> exact le_refl _
  intro hchain
  have := List.chain'_cons'.mp hchain
  have h2 := this.1
  have h3 := h2 (⟨"v", some ["a b"], some 0, some 2⟩ : ChunkRec) (by decide)
  exact absurd h3 (by decide)
